import Mathlib

/-!
Verification of the zone-kubeflow-containers maintenance utilities.

The definitions below are shallow embeddings of the Python sources:
  * `extension_checker.py` (directive extraction, registry lookups,
    version reconciliation),
  * `extension_checker_with_pr.py` (the sed-based Dockerfile rewrite),
  * `images/base/adjust-server-resources.py` (CPU/RAM validation),
  * `images/cmd/custom_checkpoints.py` (checkpoint path hashing).

Python strings are modelled as `String` or `List Char`, `None`-able strings
as `Option String`, Python truthiness of a string as "not none and not
empty", raised exceptions as `Except`, and floats as rationals (only order
comparisons and value-preserving int narrowing occur in the sources, so `ℚ`
is adequate for the branching behaviour being verified).
-/

namespace ZoneKubeflow

/-- Python truthiness of an optional string value: `None` and `""` are
falsy, every other string is truthy (`if latest and ext['version'] ...`). -/
def pyTruthy : Option String → Bool
  | none => false
  | some s => s ≠ ""

/-- An entry of the reconciliation result, as built by the update loop:
`{"id": ..., "old_version": ..., "new_version": ...}`. -/
structure UpdateEntry where
  id : String
  old_version : String
  new_version : String
deriving DecidableEq, Repr

/-- One reconciliation input: `(identifier, declared_version, latest_version)`. -/
abbrev ReconTriple := String × Option String × Option String

/-- The reconciliation step of the main loop of `extension_checker.py`
(lines 57-62): an update entry is produced exactly when
`latest and ext['version'] and latest != ext['version']` holds, i.e. when
both versions are truthy strings and they differ as strings. -/
def reconStep : ReconTriple → Option UpdateEntry
  | (i, declared, latest) =>
    if pyTruthy latest && pyTruthy declared && decide (latest ≠ declared) then
      some ⟨i, declared.getD "", latest.getD ""⟩
    else
      none

/-- Reconciliation over a sequence of triples: the per-entry loop applied in
input order, collecting the produced entries. -/
def reconcile (l : List ReconTriple) : List UpdateEntry :=
  l.filterMap reconStep

/-- Spec-side reconciliation, written from the claim's words (with the
amendment that the declared version must also be non-empty): keep exactly
the triples whose latest version is present and non-empty, whose declared
version is present and non-empty, and whose two versions differ as strings,
preserving input order. -/
def reconcileSpec : List ReconTriple → List UpdateEntry
  | [] => []
  | (i, declared, latest) :: rest =>
    match declared, latest with
    | some dv, some lv =>
      if lv ≠ "" ∧ dv ≠ "" ∧ dv ≠ lv then
        ⟨i, dv, lv⟩ :: reconcileSpec rest
      else
        reconcileSpec rest
    | _, _ => reconcileSpec rest

/-- Claim C1, counterexample: the claim as stated requires only that the
declared version be present (non-absent); at the triple
`("a", some "", some "1")` the latest version is present and non-empty, the
declared version is present, and the two differ, so the claim demands
exactly one output entry — but the code produces none, because Python
truthiness of `ext['version']` rejects the empty string. -/
theorem reconcile_empty_declared_counterexample :
    (some "" ≠ (none : Option String)) ∧
    (some "1" ≠ (none : Option String)) ∧ "1" ≠ "" ∧
    ("" : String) ≠ "1" ∧
    reconcile [("a", some "", some "1")] = [] := by
  refine ⟨by decide, by decide, by decide, by decide, rfl⟩

/-- Claim C1 (amended: the declared version must also be non-empty):
reconciliation produces exactly the subsequence of entries where the latest
version is present and non-empty, the declared version is present and
non-empty, and the two differ by exact string equality — no entry when they
are equal, no entry when either is absent or empty, exactly one entry
`{id, old_version, new_version}` when they differ — preserving input
order. -/
theorem reconcile_eq_reconcileSpec (l : List ReconTriple) :
    reconcile l = reconcileSpec l := by
  induction l with
  | nil => rfl
  | cons t rest ih =>
    obtain ⟨i, d, la⟩ := t
    cases d with
    | none =>
      cases la <;>
        simp [reconcile, reconcileSpec, reconStep, pyTruthy] <;>
        simpa [reconcile] using ih
    | some dv =>
      cases la with
      | none =>
        simp [reconcile, reconcileSpec, reconStep, pyTruthy]
        simpa [reconcile] using ih
      | some lv =>
        have ih2 : List.filterMap reconStep rest = reconcileSpec rest := ih
        by_cases hne : dv = lv
        · by_cases hlv : lv = "" <;>
            simp [reconcile, reconcileSpec, reconStep, pyTruthy, hne, hlv, ih2]
        · have hne2 : ¬ lv = dv := fun h => hne h.symm
          by_cases hlv : lv = "" <;> by_cases hdv : dv = "" <;>
            simp [reconcile, reconcileSpec, reconStep, pyTruthy, hlv, hdv,
              hne, hne2, ih2]

/-! ### `images/base/adjust-server-resources.py`

`get_cpu_cores` and `get_ram` are modelled over `ℚ`: the source only
compares the float inputs (`<`, `>`) against the constants `0.1`, `14`, `1`,
`48` and narrows an integral-valued float to `int`, which preserves the
numeric value, so the returned pair is modelled at value level. A raised
`ValueError` is modelled as `Except.error` carrying the message. -/

/-- `get_cpu_cores` of `adjust-server-resources.py`: an absent limit
defaults to the request; the request must be at least 0.1, the limit at
most 14, and the request at most the limit. -/
def get_cpu_cores (cpu_request : ℚ) (cpu_limit : Option ℚ) :
    Except String (ℚ × ℚ) :=
  if cpu_request < 1/10 then
    Except.error "Cannot have less than 0.1 CPU cores specified."
  else if cpu_limit.getD cpu_request > 14 then
    Except.error "Cannot have more than 14 CPU cores specified."
  else if cpu_request > cpu_limit.getD cpu_request then
    Except.error "Cannot have requested CPU cores be greater than limit."
  else
    Except.ok (cpu_request, cpu_limit.getD cpu_request)

/-- `get_ram` of `adjust-server-resources.py`: identical structure with
bounds 1 GiB and 48 GiB. -/
def get_ram (ram_request : ℚ) (ram_limit : Option ℚ) :
    Except String (ℚ × ℚ) :=
  if ram_request < 1 then
    Except.error "Cannot have less than 1 GiB of RAM specified."
  else if ram_limit.getD ram_request > 48 then
    Except.error "Cannot have more than 48 GiB of RAM specified."
  else if ram_request > ram_limit.getD ram_request then
    Except.error "Cannot have requested RAM be greater than limit."
  else
    Except.ok (ram_request, ram_limit.getD ram_request)

theorem get_cpu_cores_charact (req : ℚ) (lim : Option ℚ) :
    ((∃ e, get_cpu_cores req lim = Except.error e) ↔
      (req < 1/10 ∨ 14 < lim.getD req ∨ lim.getD req < req)) ∧
    (¬ (req < 1/10 ∨ 14 < lim.getD req ∨ lim.getD req < req) →
      get_cpu_cores req lim = Except.ok (req, lim.getD req)) := by
  unfold get_cpu_cores
  refine ⟨⟨?_, ?_⟩, ?_⟩
  · rintro ⟨e, he⟩
    split_ifs at he with h1 h2 h3
    · exact Or.inl h1
    · exact Or.inr (Or.inl h2)
    · exact Or.inr (Or.inr h3)
  · intro h
    split_ifs with h1 h2 h3
    · exact ⟨_, rfl⟩
    · exact ⟨_, rfl⟩
    · exact ⟨_, rfl⟩
    · rcases h with h | h | h <;> [exact absurd h h1; exact absurd h h2;
        exact absurd h h3]
  · intro h
    split_ifs with h1 h2 h3
    · exact absurd (Or.inl h1) h
    · exact absurd (Or.inr (Or.inl h2)) h
    · exact absurd (Or.inr (Or.inr h3)) h
    · rfl

theorem get_ram_charact (req : ℚ) (lim : Option ℚ) :
    ((∃ e, get_ram req lim = Except.error e) ↔
      (req < 1 ∨ 48 < lim.getD req ∨ lim.getD req < req)) ∧
    (¬ (req < 1 ∨ 48 < lim.getD req ∨ lim.getD req < req) →
      get_ram req lim = Except.ok (req, lim.getD req)) := by
  unfold get_ram
  refine ⟨⟨?_, ?_⟩, ?_⟩
  · rintro ⟨e, he⟩
    split_ifs at he with h1 h2 h3
    · exact Or.inl h1
    · exact Or.inr (Or.inl h2)
    · exact Or.inr (Or.inr h3)
  · intro h
    split_ifs with h1 h2 h3
    · exact ⟨_, rfl⟩
    · exact ⟨_, rfl⟩
    · exact ⟨_, rfl⟩
    · rcases h with h | h | h <;> [exact absurd h h1; exact absurd h h2;
        exact absurd h h3]
  · intro h
    split_ifs with h1 h2 h3
    · exact absurd (Or.inl h1) h
    · exact absurd (Or.inr (Or.inl h2)) h
    · exact absurd (Or.inr (Or.inr h3)) h
    · rfl

/-- Claim C9: the CPU validation uses `cpu_request` as the effective limit
when `cpu_limit` is absent, raises `ValueError` exactly when the request is
below 0.1, the effective limit exceeds 14, or the request exceeds the
effective limit, and otherwise returns the (request, effective limit) pair
numerically unchanged; the RAM validation behaves identically with lower
bound 1 GiB and upper bound 48 GiB. -/
theorem resource_validation_charact (creq rreq : ℚ)
    (clim rlim : Option ℚ) :
    ((∃ e, get_cpu_cores creq clim = Except.error e) ↔
      (creq < 1/10 ∨ 14 < clim.getD creq ∨ clim.getD creq < creq)) ∧
    (¬ (creq < 1/10 ∨ 14 < clim.getD creq ∨ clim.getD creq < creq) →
      get_cpu_cores creq clim = Except.ok (creq, clim.getD creq)) ∧
    ((∃ e, get_ram rreq rlim = Except.error e) ↔
      (rreq < 1 ∨ 48 < rlim.getD rreq ∨ rlim.getD rreq < rreq)) ∧
    (¬ (rreq < 1 ∨ 48 < rlim.getD rreq ∨ rlim.getD rreq < rreq) →
      get_ram rreq rlim = Except.ok (rreq, rlim.getD rreq)) :=
  ⟨(get_cpu_cores_charact creq clim).1, (get_cpu_cores_charact creq clim).2,
    (get_ram_charact rreq rlim).1, (get_ram_charact rreq rlim).2⟩

/-- Claim C9 witness: at `cpu_request = 2` (no limit) and
`ram_request = 4, ram_limit = 8`, the side conditions hold and the
validators return the pairs unchanged. -/
theorem resource_validation_charact_witness :
    (¬ ((2 : ℚ) < 1/10 ∨ 14 < (none : Option ℚ).getD 2 ∨
        (none : Option ℚ).getD 2 < 2) ∧
      ¬ ((4 : ℚ) < 1 ∨ 48 < (some (8 : ℚ)).getD 4 ∨
        (some (8 : ℚ)).getD 4 < 4)) ∧
    get_cpu_cores 2 none = Except.ok (2, 2) ∧
    get_ram 4 (some 8) = Except.ok (4, 8) :=
  ⟨⟨by simp only [Option.getD_none]; norm_num,
      by simp only [Option.getD_some]; norm_num⟩,
    by
      have h := (resource_validation_charact 2 4 none (some 8)).2.1
        (by simp only [Option.getD_none]; norm_num)
      simpa using h,
    by
      have h := (resource_validation_charact 2 4 none (some 8)).2.2.2
        (by simp only [Option.getD_some]; norm_num)
      simpa using h⟩

/-! ### Directive extraction (`extract_extensions_and_vsix`)

The two regular expressions of the source,

  `code-server\s+--install-extension\s+([^\s@\\]+)(?:@([^\s\\]+))?`
  `wget.*github\.com/([^/]+/[^/]+)/releases/download/v?([0-9.]+)/([^\s]+\.vsix)`

are embedded as explicit matching functions over `List Char`. Every
character-class group in the patterns is followed by a delimiter excluded
from the class, so greedy maximal munch agrees with Python's backtracking
semantics for those groups; the only genuine backtracking (greedy `.*` and
the `\.vsix` suffix of the final group) is modelled by explicit
rightmost-first searches. -/

/-- ASCII whitespace as matched by Python's `\s` (the build files are
ASCII text). -/
def isPySpace (c : Char) : Bool :=
  c = ' ' || c = '\t' || c = '\n' || c = '\r' || c = '\x0b' || c = '\x0c'

/-- Character class `[^\s@\\]` of the identifier group. -/
def instIdChar (c : Char) : Bool := !isPySpace c && c ≠ '@' && c ≠ '\\'

/-- Character class `[^\s\\]` of the version group. -/
def verChar (c : Char) : Bool := !isPySpace c && c ≠ '\\'

/-- Character class `[0-9.]` of the release-version group. -/
def digitDot (c : Char) : Bool := ('0' ≤ c && c ≤ '9') || c = '.'

/-- Match a literal string at the head of the input; return the rest. -/
def litAt : List Char → List Char → Option (List Char)
  | [], l => some l
  | _ :: _, [] => none
  | p :: ps, c :: cs => if c = p then litAt ps cs else none

/-- Greedy `\s+`: at least one whitespace character, consumed maximally. -/
def spaces1 (l : List Char) : Option (List Char) :=
  match l.takeWhile isPySpace with
  | [] => none
  | _ :: _ => some (l.dropWhile isPySpace)

/-- Greedy nonempty character-class capture `[c]+`: the maximal run and
the rest of the input. -/
def classPlus (p : Char → Bool) (l : List Char) :
    Option (List Char × List Char) :=
  match l.takeWhile p with
  | [] => none
  | t => some (t, l.dropWhile p)

/-- The literal `code-server` of the install pattern. -/
def csLit : List Char := "code-server".data

/-- The literal `--install-extension` of the install pattern. -/
def ieLit : List Char := "--install-extension".data

/-- The literal `wget` of the download pattern. -/
def wgetLit : List Char := "wget".data

/-- The literal `github.com/` of the download pattern. -/
def ghLit : List Char := "github.com/".data

/-- The literal `/releases/download/` of the download pattern. -/
def rdLit : List Char := "/releases/download/".data

/-- The literal `.vsix`. -/
def vsixLit : List Char := ".vsix".data

/-- The literal `.vsix`, reversed. -/
def vsixRevLit : List Char := vsixLit.reverse

/-- Character class `[^/]` of the owner and repository-name groups. -/
def slashFree (c : Char) : Bool := c ≠ '/'

/-- Character class `[^\s]` of the filename group. -/
def nonSpace (c : Char) : Bool := !isPySpace c

/-- Attempt to match the install-extension pattern at the head of the
input, returning the identifier capture and the optional version capture.
When the input continues with `@` but the version group cannot match, the
optional group `(?:@...)?` matches empty, exactly as in the source
pattern. -/
def matchInstallAt (l : List Char) : Option (List Char × Option (List Char)) := do
  let r1 ← litAt csLit l
  let r2 ← spaces1 r1
  let r3 ← litAt ieLit r2
  let r4 ← spaces1 r3
  let (ext, r5) ← classPlus instIdChar r4
  match r5 with
  | [] => some (ext, none)
  | c :: r6 =>
    if c = '@' then
      match classPlus verChar r6 with
      | some (v, _) => some (ext, some v)
      | none => some (ext, none)
    else
      some (ext, none)

/-- Leftmost search: `re.search` tries each start position from left to
right and returns the first successful match. -/
def reSearch (f : List Char → Option α) : List Char → Option α
  | [] => f []
  | c :: cs =>
    match f (c :: cs) with
    | some x => some x
    | none => reSearch f cs

/-- Backtracking of the final group `([^\s]+\.vsix)`, on the reversed
non-space run: the longest prefix of the run that ends in `.vsix` and has a
nonempty stem, returned reversed. -/
def vsixSplitRev : List Char → Option (List Char)
  | [] => none
  | c :: cs =>
    if (litAt vsixRevLit (c :: cs)).isSome && decide (5 ≤ cs.length) then
      some (c :: cs)
    else
      vsixSplitRev cs

/-- A hosted-release entry `{repo, version, file}` extracted from a
download-URL line. -/
structure HostedRelease where
  repo : String
  version : String
  file : String
deriving DecidableEq, Repr

/-- Attempt to match the part of the wget pattern starting at
`github\.com/` at the head of the input. -/
def matchGithubTailAt (l : List Char) : Option HostedRelease := do
  let r1 ← litAt ghLit l
  let (owner, r2) ← classPlus slashFree r1
  let r3 ← litAt ['/'] r2
  let (rname, r4) ← classPlus slashFree r3
  let r5 ← litAt rdLit r4
  let (ver, r6) ←
    match r5 with
    | [] => none
    | c :: r => if c = 'v' then classPlus digitDot r else classPlus digitDot (c :: r)
  let r7 ← litAt ['/'] r6
  let (run, _) ← classPlus nonSpace r7
  let g3 ← (vsixSplitRev run.reverse).map List.reverse
  some ⟨⟨owner⟩ ++ "/" ++ ⟨rname⟩, ⟨ver⟩, ⟨g3⟩⟩

/-- Greedy `.*` between `wget` and the rest of the pattern: `.` matches
anything except a newline, and greediness means the rightmost position at
which the tail matches is the one used. -/
def dotStarRightmost (f : List Char → Option α) : List Char → Option α
  | [] => f []
  | c :: cs =>
    match (if c = '\n' then none else dotStarRightmost f cs) with
    | some x => some x
    | none => f (c :: cs)

/-- Attempt to match the whole wget pattern at the head of the input. -/
def matchWgetAt (l : List Char) : Option HostedRelease := do
  let r ← litAt wgetLit l
  dotStarRightmost matchGithubTailAt r

/-- A marketplace entry `{"id": ..., "version": ...}` (the version is
`None` when the directive has no `@version` suffix). -/
structure MarketplaceEntry where
  id : String
  version : Option String
deriving DecidableEq, Repr

/-- Python `ext.endswith(".vsix")`. -/
def endsWithVsix (s : List Char) : Bool :=
  vsixLit.isSuffixOf s

/-- The three output sequences of `extract_extensions_and_vsix`. -/
structure ExtractState where
  extensions : List MarketplaceEntry
  vsix_files : List String
  github_vsix : List HostedRelease
deriving DecidableEq, Repr

/-- The body of the `for line in f` loop of `extract_extensions_and_vsix`:
the install-extension pattern is searched first and its match routed by the
`.vsix` suffix test, then the wget pattern is searched independently. -/
def processLine (st : ExtractState) (line : String) : ExtractState :=
  let st1 :=
    match reSearch matchInstallAt line.data with
    | some (ext, ver) =>
      if endsWithVsix ext then
        { st with vsix_files := st.vsix_files ++ [⟨ext⟩] }
      else
        { st with extensions := st.extensions ++ [⟨⟨ext⟩, ver.map String.mk⟩] }
    | none => st
  match reSearch matchWgetAt line.data with
  | some g => { st1 with github_vsix := st1.github_vsix ++ [g] }
  | none => st1

/-- `extract_extensions_and_vsix`, with the build file given as its list of
lines: a single pass appending to three initially-empty sequences. -/
def extract_extensions_and_vsix (lines : List String) : ExtractState :=
  lines.foldl processLine ⟨[], [], []⟩

/-! ### Matching lemmas -/

/-- `true` when the list is empty or its head fails `p`: the shapes of
input on which a greedy `[c]+` capture stops. -/
def headFails (p : Char → Bool) : List Char → Bool
  | [] => true
  | c :: _ => !p c

theorem litAt_append (p r : List Char) : litAt p (p ++ r) = some r := by
  induction p with
  | nil => rfl
  | cons c cs ih => simp [litAt, ih]

theorem takeWhile_append_of_all (p : Char → Bool) {l r : List Char}
    (hl : ∀ c ∈ l, p c = true) (hr : headFails p r = true) :
    (l ++ r).takeWhile p = l ∧ (l ++ r).dropWhile p = r := by
  induction l with
  | nil =>
    cases r with
    | nil => exact ⟨rfl, rfl⟩
    | cons c cs =>
      simp only [headFails, Bool.not_eq_true'] at hr
      simp [List.takeWhile, List.dropWhile, hr]
  | cons a l ih =>
    have ha : p a = true := hl a (by simp)
    have h2 := ih (fun c hc => hl c (by simp [hc]))
    simp [List.takeWhile, List.dropWhile, ha, h2.1, h2.2]

theorem classPlus_append (p : Char → Bool) {l r : List Char} (h0 : l ≠ [])
    (hl : ∀ c ∈ l, p c = true) (hr : headFails p r = true) :
    classPlus p (l ++ r) = some (l, r) := by
  obtain ⟨ht, hd⟩ := takeWhile_append_of_all p hl hr
  cases l with
  | nil => exact absurd rfl h0
  | cons a as => simp only [classPlus, ht, hd]

theorem spaces1_cons_space {r : List Char}
    (hr : headFails isPySpace r = true) : spaces1 (' ' :: r) = some r := by
  unfold spaces1
  cases r with
  | nil => rfl
  | cons c cs =>
    simp only [headFails, Bool.not_eq_true'] at hr
    have hsp : isPySpace ' ' = true := rfl
    simp [List.takeWhile, List.dropWhile, hsp, hr]

theorem reSearch_head {f : List Char → Option α} {l : List Char} {x : α}
    (h : f l = some x) : reSearch f l = some x := by
  cases l with
  | nil => simpa [reSearch] using h
  | cons c cs => simp [reSearch, h]

theorem reSearch_append {f : List Char → Option α} (p r : List Char)
    (h : ∀ i < p.length, f ((p ++ r).drop i) = none) :
    reSearch f (p ++ r) = reSearch f r := by
  induction p with
  | nil => rfl
  | cons c cs ih =>
    have h0 : f (c :: (cs ++ r)) = none := by simpa using h 0 (by simp)
    have ih2 := ih (fun i hi => by
      simpa using h (i + 1) (by simpa using Nat.succ_lt_succ hi))
    simp [reSearch, h0, ih2]

theorem dotStarRightmost_none {f : List Char → Option α} (l : List Char)
    (h : ∀ i ≤ l.length, f (l.drop i) = none) :
    dotStarRightmost f l = none := by
  induction l with
  | nil => simpa [dotStarRightmost] using h 0 (by simp)
  | cons c cs ih =>
    have h0 : f (c :: cs) = none := by simpa using h 0 (by simp)
    have ih2 := ih (fun i hi => by
      simpa using h (i + 1) (by simpa using Nat.succ_le_succ hi))
    by_cases hc : c = '\n'
    · subst hc
      simp [dotStarRightmost, ih2, h0]
    · simp [dotStarRightmost, hc, ih2, h0]

theorem dotStarRightmost_eq {f : List Char → Option α} (l : List Char)
    (k : ℕ) (hk : k ≤ l.length) (hnl : ∀ c ∈ l.take k, c ≠ '\n')
    (hfail : ∀ i ≤ l.length, i ≠ k → f (l.drop i) = none) :
    dotStarRightmost f l = f (l.drop k) := by
  induction l generalizing k with
  | nil =>
    have hk0 : k = 0 := Nat.le_zero.mp hk
    subst hk0
    simp [dotStarRightmost]
  | cons c cs ih =>
    cases k with
    | zero =>
      have hrest : dotStarRightmost f cs = none :=
        dotStarRightmost_none cs (fun i hi => by
          simpa using hfail (i + 1) (by simpa using Nat.succ_le_succ hi)
            (by omega))
      by_cases hc : c = '\n' <;> simp [dotStarRightmost, hc, hrest]
    | succ m =>
      have hc : c ≠ '\n' := hnl c (by simp [List.take])
      have ih2 : dotStarRightmost f cs = f (cs.drop m) :=
        ih m (by simpa using hk) (fun d hd => hnl d (by simp [List.take, hd]))
          (fun i hi hne => by
            simpa using hfail (i + 1) (by simpa using Nat.succ_le_succ hi)
              (by omega))
      cases hres : f (cs.drop m) with
      | some x => simp [dotStarRightmost, hc, ih2, hres]
      | none =>
        have h0 : f (c :: cs) = none :=
          hfail 0 (by simp) (by simp)
        simp [dotStarRightmost, hc, ih2, hres, h0]

theorem instIdChar_not_space {c : Char} (h : instIdChar c = true) :
    isPySpace c = false := by
  simp only [instIdChar, Bool.and_eq_true, Bool.not_eq_true'] at h
  exact h.1.1

theorem verChar_false_instIdChar {c : Char} (h : verChar c = false) :
    instIdChar c = false := by
  simp only [verChar, Bool.and_eq_true, Bool.and_eq_false_iff,
    Bool.not_eq_false, decide_eq_false_iff_not, not_not] at h
  rcases h with h | h <;>
    simp [instIdChar, h]

theorem headFails_verChar_instIdChar {r : List Char}
    (h : headFails verChar r = true) : headFails instIdChar r = true := by
  cases r with
  | nil => rfl
  | cons c t =>
    simp only [headFails, Bool.not_eq_true'] at h ⊢
    exact verChar_false_instIdChar h

theorem headFails_isPySpace_of_inst {A rest : List Char} (hA0 : A ≠ [])
    (hA : ∀ c ∈ A, instIdChar c = true) :
    headFails isPySpace (A ++ rest) = true := by
  cases A with
  | nil => exact absurd rfl hA0
  | cons a as =>
    have h := instIdChar_not_space (hA a (by simp))
    simp [headFails, h]

theorem matchInstallAt_none_of_lit {l : List Char}
    (h : litAt csLit l = none) : matchInstallAt l = none := by
  simp [matchInstallAt, h]

theorem matchInstallAt_with_version {A B rest : List Char}
    (hA0 : A ≠ []) (hA : ∀ c ∈ A, instIdChar c = true)
    (hB0 : B ≠ []) (hB : ∀ c ∈ B, verChar c = true)
    (hrest : headFails verChar rest = true) :
    matchInstallAt ("code-server --install-extension ".data
      ++ (A ++ ('@' :: (B ++ rest)))) = some (A, some B) := by
  have hsplit : ("code-server --install-extension " : String).data
      = csLit ++ (' ' :: (ieLit ++ [' '])) := rfl
  rw [hsplit, List.append_assoc, List.cons_append, List.append_assoc,
    List.singleton_append]
  have hr1 : headFails isPySpace
      (ieLit ++ (' ' :: (A ++ ('@' :: (B ++ rest)))))
      = true := rfl
  have hr2 : headFails instIdChar ('@' :: (B ++ rest)) = true := rfl
  have hspA : headFails isPySpace (A ++ ('@' :: (B ++ rest))) = true :=
    headFails_isPySpace_of_inst hA0 hA
  simp only [matchInstallAt, Option.bind_eq_bind]
  rw [litAt_append]
  simp only [Option.some_bind]
  rw [spaces1_cons_space hr1]
  simp only [Option.some_bind]
  rw [litAt_append]
  simp only [Option.some_bind]
  rw [spaces1_cons_space hspA]
  simp only [Option.some_bind]
  rw [classPlus_append instIdChar hA0 hA hr2]
  simp only [Option.some_bind]
  simp only [if_true]
  rw [classPlus_append verChar hB0 hB hrest]

theorem matchInstallAt_no_version {A rest : List Char}
    (hA0 : A ≠ []) (hA : ∀ c ∈ A, instIdChar c = true)
    (hrest : headFails verChar rest = true) :
    matchInstallAt ("code-server --install-extension ".data ++ (A ++ rest))
      = some (A, none) := by
  have hsplit : ("code-server --install-extension " : String).data
      = csLit ++ (' ' :: (ieLit ++ [' '])) := rfl
  rw [hsplit, List.append_assoc, List.cons_append, List.append_assoc,
    List.singleton_append]
  have hr1 : headFails isPySpace
      (ieLit ++ (' ' :: (A ++ rest))) = true := rfl
  have hspA : headFails isPySpace (A ++ rest) = true :=
    headFails_isPySpace_of_inst hA0 hA
  simp only [matchInstallAt, Option.bind_eq_bind]
  rw [litAt_append]
  simp only [Option.some_bind]
  rw [spaces1_cons_space hr1]
  simp only [Option.some_bind]
  rw [litAt_append]
  simp only [Option.some_bind]
  rw [spaces1_cons_space hspA]
  simp only [Option.some_bind]
  rw [classPlus_append instIdChar hA0 hA (headFails_verChar_instIdChar hrest)]
  simp only [Option.some_bind]
  cases rest with
  | nil => rfl
  | cons c t =>
    simp only [headFails, Bool.not_eq_true'] at hrest
    have hne : c ≠ '@' := by
      intro he
      subst he
      exact absurd hrest (by decide)
    simp only [if_neg hne]

theorem reSearch_install {pre tail : List Char}
    {res : List Char × Option (List Char)}
    (hpre : ∀ i < pre.length, litAt csLit ((pre ++ tail).drop i) = none)
    (h : matchInstallAt tail = some res) :
    reSearch matchInstallAt (pre ++ tail) = some res := by
  rw [reSearch_append pre tail
    (fun i hi => matchInstallAt_none_of_lit (hpre i hi))]
  exact reSearch_head h

theorem processLine_extensions (st : ExtractState) (line : String) :
    (processLine st line).extensions =
      match reSearch matchInstallAt line.data with
      | some (ext, ver) =>
        if endsWithVsix ext then st.extensions
        else st.extensions ++ [⟨⟨ext⟩, ver.map String.mk⟩]
      | none => st.extensions := by
  unfold processLine
  cases h1 : reSearch matchInstallAt line.data with
  | none => cases h2 : reSearch matchWgetAt line.data <;> simp [h2]
  | some p =>
    obtain ⟨ext, ver⟩ := p
    by_cases hv : endsWithVsix ext <;>
      cases h2 : reSearch matchWgetAt line.data <;> simp [h2, hv]

theorem processLine_vsix_files (st : ExtractState) (line : String) :
    (processLine st line).vsix_files =
      match reSearch matchInstallAt line.data with
      | some (ext, _) =>
        if endsWithVsix ext then st.vsix_files ++ [⟨ext⟩]
        else st.vsix_files
      | none => st.vsix_files := by
  unfold processLine
  cases h1 : reSearch matchInstallAt line.data with
  | none => cases h2 : reSearch matchWgetAt line.data <;> simp [h2]
  | some p =>
    obtain ⟨ext, ver⟩ := p
    by_cases hv : endsWithVsix ext <;>
      cases h2 : reSearch matchWgetAt line.data <;> simp [h2, hv]

theorem processLine_github (st : ExtractState) (line : String) :
    (processLine st line).github_vsix =
      match reSearch matchWgetAt line.data with
      | some g => st.github_vsix ++ [g]
      | none => st.github_vsix := by
  unfold processLine
  cases h1 : reSearch matchInstallAt line.data with
  | none => cases h2 : reSearch matchWgetAt line.data <;> simp [h2]
  | some p =>
    obtain ⟨ext, ver⟩ := p
    by_cases hv : endsWithVsix ext <;>
      cases h2 : reSearch matchWgetAt line.data <;> simp [h2, hv]

theorem processLine_marketplace {st : ExtractState} {line : String}
    {ext : List Char} {ver : Option (List Char)}
    (h : reSearch matchInstallAt line.data = some (ext, ver))
    (hv : endsWithVsix ext = false) :
    (processLine st line).extensions
        = st.extensions ++ [⟨⟨ext⟩, ver.map String.mk⟩] ∧
      (processLine st line).vsix_files = st.vsix_files := by
  constructor
  · rw [processLine_extensions, h]
    simp [hv]
  · rw [processLine_vsix_files, h]
    simp [hv]

theorem processLine_standalone {st : ExtractState} {line : String}
    {ext : List Char} {ver : Option (List Char)}
    (h : reSearch matchInstallAt line.data = some (ext, ver))
    (hv : endsWithVsix ext = true) :
    (processLine st line).extensions = st.extensions ∧
      (processLine st line).vsix_files = st.vsix_files ++ [⟨ext⟩] := by
  constructor
  · rw [processLine_extensions, h]
    simp [hv]
  · rw [processLine_vsix_files, h]
    simp [hv]

theorem line_with_version_data (pre A B suffix : String) :
    (pre ++ "code-server --install-extension " ++ A ++ "@" ++ B
        ++ suffix).data
      = pre.data ++ ("code-server --install-extension ".data
          ++ (A.data ++ ('@' :: (B.data ++ suffix.data)))) := by
  simp only [String.data_append, List.append_assoc]
  rfl

theorem line_no_version_data (pre A suffix : String) :
    (pre ++ "code-server --install-extension " ++ A ++ suffix).data
      = pre.data ++ ("code-server --install-extension ".data
          ++ (A.data ++ suffix.data)) := by
  simp only [String.data_append, List.append_assoc]

theorem extract_singleton (line : String) :
    extract_extensions_and_vsix [line] = processLine ⟨[], [], []⟩ line := rfl

/-- Claim C2: for a build-file line containing an install-extension
invocation `code-server --install-extension A@B` — `A` a nonempty run of
non-whitespace, non-`@`, non-backslash characters not ending in `.vsix`,
`B` a nonempty run of non-whitespace, non-backslash characters, the
capture delimited on the right, and no earlier start of a `code-server`
literal in the line — extraction yields the marketplace entry
`{id: A, version: B}`; the same line with no `@B` suffix yields
`{id: A, version: absent}` and does not fail. -/
theorem install_line_extraction (pre A B suffix : String)
    (hA0 : A.data ≠ []) (hA : ∀ c ∈ A.data, instIdChar c = true)
    (hAvsix : endsWithVsix A.data = false)
    (hB0 : B.data ≠ []) (hB : ∀ c ∈ B.data, verChar c = true)
    (hsuf : headFails verChar suffix.data = true)
    (hpre1 : ∀ i < pre.data.length, litAt csLit
      ((pre ++ "code-server --install-extension " ++ A ++ "@" ++ B
        ++ suffix).data.drop i) = none)
    (hpre2 : ∀ i < pre.data.length, litAt csLit
      ((pre ++ "code-server --install-extension " ++ A
        ++ suffix).data.drop i) = none) :
    (extract_extensions_and_vsix
        [pre ++ "code-server --install-extension " ++ A ++ "@" ++ B
          ++ suffix]).extensions
      = [⟨A, some B⟩] ∧
    (extract_extensions_and_vsix
        [pre ++ "code-server --install-extension " ++ A
          ++ suffix]).extensions
      = [⟨A, none⟩] := by
  constructor
  · have hdata := line_with_version_data pre A B suffix
    rw [hdata] at hpre1
    have hs := reSearch_install hpre1
      (matchInstallAt_with_version hA0 hA hB0 hB hsuf)
    rw [extract_singleton,
      (processLine_marketplace (by rw [hdata]; exact hs) hAvsix).1]
    rfl
  · have hdata := line_no_version_data pre A suffix
    rw [hdata] at hpre2
    have hs := reSearch_install hpre2 (matchInstallAt_no_version hA0 hA hsuf)
    rw [extract_singleton,
      (processLine_marketplace (by rw [hdata]; exact hs) hAvsix).1]
    rfl

/-- Claim C2 witness: the spec's own example line (with and without the
version suffix), prefixed by `RUN `. -/
theorem install_line_extraction_witness :
    (∀ c ∈ ("ms-python.python" : String).data, instIdChar c = true) ∧
    (extract_extensions_and_vsix
        ["RUN " ++ "code-server --install-extension " ++ "ms-python.python"
          ++ "@" ++ "2022.10.0" ++ ""]).extensions
      = [⟨"ms-python.python", some "2022.10.0"⟩] ∧
    (extract_extensions_and_vsix
        ["RUN " ++ "code-server --install-extension " ++ "ms-python.python"
          ++ ""]).extensions
      = [⟨"ms-python.python", none⟩] :=
  ⟨by decide,
    (install_line_extraction "RUN " "ms-python.python" "2022.10.0" ""
      (by decide) (by decide) (by decide) (by decide) (by decide)
      (by decide) (by decide) (by decide)).1,
    (install_line_extraction "RUN " "ms-python.python" "2022.10.0" ""
      (by decide) (by decide) (by decide) (by decide) (by decide)
      (by decide) (by decide) (by decide)).2⟩

/-- Claim C3: for an install-extension line whose identifier ends in
`.vsix`, extraction appends the identifier to the standalone-artifact
sequence and never to the marketplace sequence, both when a version suffix
is present and when it is absent. -/
theorem vsix_line_routing (pre A B suffix : String)
    (hA0 : A.data ≠ []) (hA : ∀ c ∈ A.data, instIdChar c = true)
    (hAvsix : endsWithVsix A.data = true)
    (hB0 : B.data ≠ []) (hB : ∀ c ∈ B.data, verChar c = true)
    (hsuf : headFails verChar suffix.data = true)
    (hpre1 : ∀ i < pre.data.length, litAt csLit
      ((pre ++ "code-server --install-extension " ++ A ++ "@" ++ B
        ++ suffix).data.drop i) = none)
    (hpre2 : ∀ i < pre.data.length, litAt csLit
      ((pre ++ "code-server --install-extension " ++ A
        ++ suffix).data.drop i) = none) :
    ((extract_extensions_and_vsix
        [pre ++ "code-server --install-extension " ++ A ++ "@" ++ B
          ++ suffix]).vsix_files = [A] ∧
      (extract_extensions_and_vsix
        [pre ++ "code-server --install-extension " ++ A ++ "@" ++ B
          ++ suffix]).extensions = []) ∧
    ((extract_extensions_and_vsix
        [pre ++ "code-server --install-extension " ++ A
          ++ suffix]).vsix_files = [A] ∧
      (extract_extensions_and_vsix
        [pre ++ "code-server --install-extension " ++ A
          ++ suffix]).extensions = []) := by
  have hdata1 := line_with_version_data pre A B suffix
  have hdata2 := line_no_version_data pre A suffix
  rw [hdata1] at hpre1
  rw [hdata2] at hpre2
  have hs1 := reSearch_install hpre1
    (matchInstallAt_with_version hA0 hA hB0 hB hsuf)
  have hs2 := reSearch_install hpre2
    (matchInstallAt_no_version hA0 hA hsuf)
  refine ⟨⟨?_, ?_⟩, ⟨?_, ?_⟩⟩
  · rw [extract_singleton,
      (processLine_standalone (by rw [hdata1]; exact hs1) hAvsix).2]
    rfl
  · rw [extract_singleton,
      (processLine_standalone (by rw [hdata1]; exact hs1) hAvsix).1]
  · rw [extract_singleton,
      (processLine_standalone (by rw [hdata2]; exact hs2) hAvsix).2]
    rfl
  · rw [extract_singleton,
      (processLine_standalone (by rw [hdata2]; exact hs2) hAvsix).1]

/-- Claim C3 witness: the `.vsix`-suffixed identifier of the build file,
with and without a version suffix. -/
theorem vsix_line_routing_witness :
    endsWithVsix ("/tmp/my-ext.vsix" : String).data = true ∧
    (extract_extensions_and_vsix
        ["RUN " ++ "code-server --install-extension " ++ "/tmp/my-ext.vsix"
          ++ "@" ++ "1.2" ++ ""]).vsix_files = ["/tmp/my-ext.vsix"] ∧
    (extract_extensions_and_vsix
        ["RUN " ++ "code-server --install-extension " ++ "/tmp/my-ext.vsix"
          ++ "@" ++ "1.2" ++ ""]).extensions = [] ∧
    (extract_extensions_and_vsix
        ["RUN " ++ "code-server --install-extension " ++ "/tmp/my-ext.vsix"
          ++ ""]).vsix_files = ["/tmp/my-ext.vsix"] ∧
    (extract_extensions_and_vsix
        ["RUN " ++ "code-server --install-extension " ++ "/tmp/my-ext.vsix"
          ++ ""]).extensions = [] := by
  have h := vsix_line_routing "RUN " "/tmp/my-ext.vsix" "1.2" ""
    (by decide) (by decide) (by decide) (by decide) (by decide)
    (by decide) (by decide) (by decide)
  exact ⟨by decide, h.1.1, h.1.2, h.2.1, h.2.2⟩

theorem litAt_slash (l : List Char) : litAt ['/'] ('/' :: l) = some l := by
  simp [litAt]

theorem digitDot_ne_v {c : Char} (h : digitDot c = true) : c ≠ 'v' := by
  intro he
  subst he
  exact absurd h (by decide)

theorem vsixSplitRev_end {X : List Char} (hX : X ≠ []) :
    vsixSplitRev ((X ++ vsixLit).reverse) = some ((X ++ vsixLit).reverse) := by
  have hrev : (X ++ vsixLit).reverse = vsixRevLit ++ X.reverse := by
    rw [List.reverse_append]
    rfl
  rw [hrev]
  have hcons : vsixRevLit ++ X.reverse
      = 'x' :: ('i' :: ('s' :: ('v' :: ('.' :: X.reverse)))) := rfl
  rw [hcons]
  have hlit : litAt vsixRevLit
      ('x' :: ('i' :: ('s' :: ('v' :: ('.' :: X.reverse))))) = some X.reverse :=
    litAt_append vsixRevLit X.reverse
  have hlen : 5 ≤ ('i' :: ('s' :: ('v' :: ('.' :: X.reverse)))).length := by
    have : X.reverse.length = X.length := List.length_reverse X
    have hx : 1 ≤ X.length := by
      cases X with
      | nil => exact absurd rfl hX
      | cons a as => simp
    simp [this]
    omega
  rw [vsixSplitRev, if_pos]
  rw [hlit]
  simp only [Option.isSome_some, Bool.true_and, decide_eq_true_eq]
  cases X with
  | nil => exact absurd rfl hX
  | cons a as => simp

theorem matchGithubTailAt_none_of_lit {l : List Char}
    (h : litAt ghLit l = none) : matchGithubTailAt l = none := by
  simp [matchGithubTailAt, h]

theorem matchWgetAt_none_of_lit {l : List Char}
    (h : litAt wgetLit l = none) : matchWgetAt l = none := by
  simp [matchWgetAt, h]

theorem processLine_hosted {st : ExtractState} {line : String}
    {g : HostedRelease} (h : reSearch matchWgetAt line.data = some g) :
    (processLine st line).github_vsix = st.github_vsix ++ [g] := by
  rw [processLine_github, h]

theorem matchGithubTailAt_v {owner rname ver fstem suffix : List Char}
    (how0 : owner ≠ []) (how : ∀ c ∈ owner, slashFree c = true)
    (hrn0 : rname ≠ []) (hrn : ∀ c ∈ rname, slashFree c = true)
    (hver0 : ver ≠ []) (hver : ∀ c ∈ ver, digitDot c = true)
    (hfs0 : fstem ≠ []) (hfs : ∀ c ∈ fstem ++ vsixLit, nonSpace c = true)
    (hsuf : headFails nonSpace suffix = true) :
    matchGithubTailAt (ghLit ++ (owner ++ ('/' :: (rname ++ (rdLit
        ++ ('v' :: (ver ++ ('/' :: (fstem ++ (vsixLit ++ suffix))))))))))
      = some ⟨⟨owner⟩ ++ "/" ++ ⟨rname⟩, ⟨ver⟩, ⟨fstem ++ vsixLit⟩⟩ := by
  have h1 : classPlus slashFree (owner ++ ('/' :: (rname ++ (rdLit
      ++ ('v' :: (ver ++ ('/' :: (fstem ++ (vsixLit ++ suffix)))))))))
      = some (owner, '/' :: (rname ++ (rdLit
        ++ ('v' :: (ver ++ ('/' :: (fstem ++ (vsixLit ++ suffix)))))))) :=
    classPlus_append slashFree how0 how rfl
  have h2 : classPlus slashFree (rname ++ (rdLit
      ++ ('v' :: (ver ++ ('/' :: (fstem ++ (vsixLit ++ suffix)))))))
      = some (rname, rdLit
        ++ ('v' :: (ver ++ ('/' :: (fstem ++ (vsixLit ++ suffix)))))) :=
    classPlus_append slashFree hrn0 hrn rfl
  have h3 : classPlus digitDot (ver ++ ('/' :: (fstem ++ (vsixLit ++ suffix))))
      = some (ver, '/' :: (fstem ++ (vsixLit ++ suffix))) :=
    classPlus_append digitDot hver0 hver rfl
  have h4 : classPlus nonSpace (fstem ++ (vsixLit ++ suffix))
      = some (fstem ++ vsixLit, suffix) := by
    rw [← List.append_assoc]
    exact classPlus_append nonSpace (by simp [hfs0]) hfs hsuf
  have h5 := vsixSplitRev_end (X := fstem) hfs0
  simp only [matchGithubTailAt, Option.bind_eq_bind]
  rw [litAt_append]
  simp only [Option.some_bind]
  rw [h1]
  simp only [Option.some_bind]
  rw [litAt_slash]
  simp only [Option.some_bind]
  rw [h2]
  simp only [Option.some_bind]
  rw [litAt_append]
  simp only [Option.some_bind]
  simp only [if_true]
  rw [h3]
  simp only [Option.some_bind]
  rw [litAt_slash]
  simp only [Option.some_bind]
  rw [h4]
  simp only [Option.some_bind]
  rw [h5]
  simp only [Option.map_some', Option.some_bind, List.reverse_reverse]

theorem matchGithubTailAt_nov {owner rname ver fstem suffix : List Char}
    (how0 : owner ≠ []) (how : ∀ c ∈ owner, slashFree c = true)
    (hrn0 : rname ≠ []) (hrn : ∀ c ∈ rname, slashFree c = true)
    (hver0 : ver ≠ []) (hver : ∀ c ∈ ver, digitDot c = true)
    (hfs0 : fstem ≠ []) (hfs : ∀ c ∈ fstem ++ vsixLit, nonSpace c = true)
    (hsuf : headFails nonSpace suffix = true) :
    matchGithubTailAt (ghLit ++ (owner ++ ('/' :: (rname ++ (rdLit
        ++ (ver ++ ('/' :: (fstem ++ (vsixLit ++ suffix)))))))))
      = some ⟨⟨owner⟩ ++ "/" ++ ⟨rname⟩, ⟨ver⟩, ⟨fstem ++ vsixLit⟩⟩ := by
  cases ver with
  | nil => exact absurd rfl hver0
  | cons v0 vs =>
    simp only [List.cons_append]
    have h1 : classPlus slashFree (owner ++ ('/' :: (rname ++ (rdLit
        ++ (v0 :: (vs ++ ('/' :: (fstem ++ (vsixLit ++ suffix)))))))))
        = some (owner, '/' :: (rname ++ (rdLit
          ++ (v0 :: (vs ++ ('/' :: (fstem ++ (vsixLit ++ suffix)))))))) :=
      classPlus_append slashFree how0 how rfl
    have h2 : classPlus slashFree (rname ++ (rdLit
        ++ (v0 :: (vs ++ ('/' :: (fstem ++ (vsixLit ++ suffix)))))))
        = some (rname, rdLit
          ++ (v0 :: (vs ++ ('/' :: (fstem ++ (vsixLit ++ suffix)))))) :=
      classPlus_append slashFree hrn0 hrn rfl
    have h3 : classPlus digitDot (v0 :: (vs ++ ('/' :: (fstem
        ++ (vsixLit ++ suffix)))))
        = some (v0 :: vs, '/' :: (fstem ++ (vsixLit ++ suffix))) :=
      classPlus_append digitDot (by simp) hver rfl
    have h4 : classPlus nonSpace (fstem ++ (vsixLit ++ suffix))
        = some (fstem ++ vsixLit, suffix) := by
      rw [← List.append_assoc]
      exact classPlus_append nonSpace (by simp [hfs0]) hfs hsuf
    have h5 := vsixSplitRev_end (X := fstem) hfs0
    have hv0 : v0 ≠ 'v' := digitDot_ne_v (hver v0 (by simp))
    simp only [matchGithubTailAt, Option.bind_eq_bind]
    rw [litAt_append]
    simp only [Option.some_bind]
    rw [h1]
    simp only [Option.some_bind]
    rw [litAt_slash]
    simp only [Option.some_bind]
    rw [h2]
    simp only [Option.some_bind]
    rw [litAt_append]
    simp only [Option.some_bind]
    rw [if_neg hv0]
    rw [h3]
    simp only [Option.some_bind]
    rw [litAt_slash]
    simp only [Option.some_bind]
    rw [h4]
    simp only [Option.some_bind]
    rw [h5]
    simp only [Option.map_some', Option.some_bind, List.reverse_reverse]

/-- The portion of a download-URL line following the `wget` literal,
decomposed into its groups. -/
def wgetTail (mid owner repo vtag ver fstem suffix : String) : List Char :=
  mid.data ++ (ghLit ++ (owner.data ++ ('/' :: (repo.data ++ (rdLit
    ++ (vtag.data ++ (ver.data ++ ('/' :: (fstem.data
      ++ (vsixLit ++ suffix.data))))))))))

theorem wget_line_data (pre mid owner repo vtag ver fstem suffix : String) :
    (pre ++ "wget" ++ mid ++ "github.com/" ++ owner ++ "/" ++ repo
        ++ "/releases/download/" ++ vtag ++ ver ++ "/" ++ fstem ++ ".vsix"
        ++ suffix).data
      = pre.data
        ++ (wgetLit ++ wgetTail mid owner repo vtag ver fstem suffix) := by
  simp only [String.data_append, List.append_assoc]
  rfl

theorem matchWgetAt_append (t : List Char) :
    matchWgetAt (wgetLit ++ t) = dotStarRightmost matchGithubTailAt t := by
  simp only [matchWgetAt, Option.bind_eq_bind]
  rw [litAt_append]
  simp only [Option.some_bind]

/-- Claim C4: a line of the download-URL shape
`<wget> ... github.com/<owner>/<repo>/releases/download/v?<ver>/<file>.vsix`,
whose groups are well formed and whose `wget` and `github.com/` literals
occur only at the intended positions, extracts exactly one hosted-release
entry capturing the repository as `owner/repo`, the numeric-dotted version
with any leading `v` stripped, and the filename, with no further
normalization. -/
theorem wget_line_extraction
    (pre mid owner repo vtag ver fstem suffix : String)
    (hvt : vtag = "v" ∨ vtag = "")
    (how0 : owner.data ≠ []) (how : ∀ c ∈ owner.data, slashFree c = true)
    (hrn0 : repo.data ≠ []) (hrn : ∀ c ∈ repo.data, slashFree c = true)
    (hver0 : ver.data ≠ []) (hver : ∀ c ∈ ver.data, digitDot c = true)
    (hfs0 : fstem.data ≠ [])
    (hfs : ∀ c ∈ fstem.data ++ vsixLit, nonSpace c = true)
    (hsuf : headFails nonSpace suffix.data = true)
    (hmid : ∀ c ∈ mid.data, c ≠ '\n')
    (hgh : ∀ i ≤ (wgetTail mid owner repo vtag ver fstem suffix).length,
      i ≠ mid.data.length →
      litAt ghLit ((wgetTail mid owner repo vtag ver fstem suffix).drop i)
        = none)
    (hpre : ∀ i < pre.data.length, litAt wgetLit
      ((pre ++ "wget" ++ mid ++ "github.com/" ++ owner ++ "/" ++ repo
        ++ "/releases/download/" ++ vtag ++ ver ++ "/" ++ fstem ++ ".vsix"
        ++ suffix).data.drop i) = none) :
    (extract_extensions_and_vsix
        [pre ++ "wget" ++ mid ++ "github.com/" ++ owner ++ "/" ++ repo
          ++ "/releases/download/" ++ vtag ++ ver ++ "/" ++ fstem ++ ".vsix"
          ++ suffix]).github_vsix
      = [⟨owner ++ "/" ++ repo, ver, fstem ++ ".vsix"⟩] := by
  have hdata := wget_line_data pre mid owner repo vtag ver fstem suffix
  have htail : matchGithubTailAt
      ((wgetTail mid owner repo vtag ver fstem suffix).drop mid.data.length)
      = some ⟨⟨owner.data⟩ ++ "/" ++ ⟨repo.data⟩, ⟨ver.data⟩,
          ⟨fstem.data ++ vsixLit⟩⟩ := by
    have hdrop : (wgetTail mid owner repo vtag ver fstem
        suffix).drop mid.data.length
        = ghLit ++ (owner.data ++ ('/' :: (repo.data ++ (rdLit
            ++ (vtag.data ++ (ver.data ++ ('/' :: (fstem.data
              ++ (vsixLit ++ suffix.data))))))))) := by
      unfold wgetTail
      exact List.drop_left _ _
    rw [hdrop]
    rcases hvt with hv | hv <;> subst hv
    · exact matchGithubTailAt_v how0 how hrn0 hrn hver0 hver hfs0 hfs hsuf
    · exact matchGithubTailAt_nov how0 how hrn0 hrn hver0 hver hfs0 hfs hsuf
  have hk : mid.data.length
      ≤ (wgetTail mid owner repo vtag ver fstem suffix).length := by
    unfold wgetTail
    rw [List.length_append]
    exact Nat.le_add_right _ _
  have hnl : ∀ c ∈ (wgetTail mid owner repo vtag ver fstem
      suffix).take mid.data.length, c ≠ '\n' := by
    intro c hc
    apply hmid
    have ht : (wgetTail mid owner repo vtag ver fstem
        suffix).take mid.data.length = mid.data := by
      unfold wgetTail
      exact List.take_left _ _
    rwa [ht] at hc
  have hdot := (dotStarRightmost_eq
    (wgetTail mid owner repo vtag ver fstem suffix) mid.data.length hk hnl
    (fun i hi hne => matchGithubTailAt_none_of_lit (hgh i hi hne))).trans
    htail
  have hw := (matchWgetAt_append
    (wgetTail mid owner repo vtag ver fstem suffix)).trans hdot
  have hsr : reSearch matchWgetAt (pre.data
      ++ (wgetLit ++ wgetTail mid owner repo vtag ver fstem suffix))
      = some ⟨⟨owner.data⟩ ++ "/" ++ ⟨repo.data⟩, ⟨ver.data⟩,
          ⟨fstem.data ++ vsixLit⟩⟩ := by
    rw [reSearch_append pre.data _
      (fun i hi => matchWgetAt_none_of_lit (hdata ▸ hpre i hi))]
    exact reSearch_head hw
  rw [extract_singleton, processLine_hosted (hdata.symm ▸ hsr)]
  rfl

/-- Claim C4 witness: the spec's own example line, with the `v` tag, and
the same line without it. -/
theorem wget_line_extraction_witness :
    (("v" : String) = "v" ∨ ("v" : String) = "") ∧
    (extract_extensions_and_vsix
        ["RUN " ++ "wget" ++ " https://" ++ "github.com/" ++ "foo" ++ "/"
          ++ "bar" ++ "/releases/download/" ++ "v" ++ "1.2.3" ++ "/"
          ++ "foo-bar" ++ ".vsix" ++ ""]).github_vsix
      = [⟨"foo" ++ "/" ++ "bar", "1.2.3", "foo-bar" ++ ".vsix"⟩] ∧
    (extract_extensions_and_vsix
        ["RUN " ++ "wget" ++ " https://" ++ "github.com/" ++ "foo" ++ "/"
          ++ "bar" ++ "/releases/download/" ++ "" ++ "9.9" ++ "/"
          ++ "x.y" ++ ".vsix" ++ ""]).github_vsix
      = [⟨"foo" ++ "/" ++ "bar", "9.9", "x.y" ++ ".vsix"⟩] :=
  ⟨Or.inl rfl,
    wget_line_extraction "RUN " " https://" "foo" "bar" "v" "1.2.3"
      "foo-bar" "" (Or.inl rfl) (by decide) (by decide) (by decide)
      (by decide) (by decide) (by decide) (by decide) (by decide)
      (by decide) (by decide) (by decide) (by decide),
    wget_line_extraction "RUN " " https://" "foo" "bar" "" "9.9"
      "x.y" "" (Or.inr rfl) (by decide) (by decide) (by decide)
      (by decide) (by decide) (by decide) (by decide) (by decide)
      (by decide) (by decide) (by decide) (by decide)⟩

/-- Claim C5 counterexample: a single line matching both the
install-extension pattern and the download-URL pattern contributes an entry
to two of the three output sequences, not at most one. -/
theorem line_both_patterns_counterexample :
    (extract_extensions_and_vsix
        ["RUN code-server --install-extension a.b@1 && wget github.com/o/r/releases/download/v1.0/f.vsix"]).extensions
      = [⟨"a.b", some "1"⟩] ∧
    (extract_extensions_and_vsix
        ["RUN code-server --install-extension a.b@1 && wget github.com/o/r/releases/download/v1.0/f.vsix"]).github_vsix
      = [⟨"o/r", "1.0", "f.vsix"⟩] := by
  constructor <;> decide

/-- Claim C5 (amended: a line contributes at most one entry per pattern —
via the install pattern to exactly one of the marketplace or standalone
sequences, never both, and via the download pattern at most one
hosted-release entry; a line matching both patterns contributes to two
sequences). -/
theorem processLine_at_most_one_per_pattern (st : ExtractState)
    (line : String) :
    (((processLine st line).extensions = st.extensions ∧
        (processLine st line).vsix_files = st.vsix_files) ∨
      ((∃ e, (processLine st line).extensions = st.extensions ++ [e]) ∧
        (processLine st line).vsix_files = st.vsix_files) ∨
      ((processLine st line).extensions = st.extensions ∧
        ∃ v, (processLine st line).vsix_files = st.vsix_files ++ [v])) ∧
    ((processLine st line).github_vsix = st.github_vsix ∨
      ∃ g, (processLine st line).github_vsix = st.github_vsix ++ [g]) := by
  constructor
  · cases h1 : reSearch matchInstallAt line.data with
    | none =>
      exact Or.inl ⟨by rw [processLine_extensions, h1],
        by rw [processLine_vsix_files, h1]⟩
    | some p =>
      obtain ⟨ext, ver⟩ := p
      by_cases hv : endsWithVsix ext = true
      · exact Or.inr (Or.inr ⟨(processLine_standalone h1 hv).1,
          ⟨⟨ext⟩, (processLine_standalone h1 hv).2⟩⟩)
      · have hv2 : endsWithVsix ext = false := by simpa using hv
        exact Or.inr (Or.inl ⟨⟨_, (processLine_marketplace h1 hv2).1⟩,
          (processLine_marketplace h1 hv2).2⟩)
  · cases h2 : reSearch matchWgetAt line.data with
    | none => exact Or.inl (by rw [processLine_github, h2])
    | some g => exact Or.inr ⟨g, processLine_hosted h2⟩

/-- A run of the extractor over the build-file text, together with the text
as it stands after the run: the source only reads the file, so the text is
returned unchanged. -/
def extractRun (lines : List String) : ExtractState × List String :=
  (extract_extensions_and_vsix lines, lines)

/-- Claim C8: extraction is deterministic and idempotent over its input —
running the extractor a second time on the text left by a first run yields
the identical ordered triple of output sequences, the text is not mutated
by either run, and equal inputs always give equal outputs. -/
theorem extract_idempotent (lines : List String) :
    (extractRun ((extractRun lines).2)).1 = (extractRun lines).1 ∧
    (extractRun ((extractRun lines).2)).2 = lines ∧
    ∀ lines2, lines = lines2 →
      extract_extensions_and_vsix lines
        = extract_extensions_and_vsix lines2 := by
  refine ⟨rfl, rfl, ?_⟩
  intro l2 h
  rw [h]

/-- Claim C8 witness: both runs on a concrete one-line build file agree. -/
theorem extract_idempotent_witness :
    (extractRun ((extractRun
        ["RUN code-server --install-extension a.b@1"]).2)).1
      = (extractRun ["RUN code-server --install-extension a.b@1"]).1 ∧
    extract_extensions_and_vsix ["RUN code-server --install-extension a.b@1"]
      = extract_extensions_and_vsix
          ["RUN code-server --install-extension a.b@1"] :=
  ⟨(extract_idempotent ["RUN code-server --install-extension a.b@1"]).1,
    (extract_idempotent ["RUN code-server --install-extension a.b@1"]).2.2
      ["RUN code-server --install-extension a.b@1"] rfl⟩

/-! ### Registry lookups

The HTTP collaborator is modelled by an outcome value: either the request
raises (network error) or it returns a status code and a body that parses
to a flat field map or is malformed (so that `resp.json()` raises). A
propagating Python exception is `Except.error`; a function whose body is
wrapped in `try/except` is total and returns `Option`. -/

/-- The parsed-or-malformed body of a registry response. -/
inductive RespBody where
  | malformed : RespBody
  | fields : List (String × String) → RespBody
deriving DecidableEq

/-- The outcome of `requests.get`: a raised network error, or a response
with a status code and a body. -/
inductive HttpOutcome where
  | err : String → HttpOutcome
  | ok : Nat → RespBody → HttpOutcome
deriving DecidableEq

/-- `data.get(key)`: the field's value, or `None` when absent. -/
def jsonGet (fs : List (String × String)) (k : String) : Option String :=
  (fs.find? (fun p => p.1 = k)).map Prod.snd

/-- Python `ext_id.split('.', 1)` unpacked into two names: raises
(`None` here, caught by the caller's `except`) when the identifier has no
dot. -/
def pySplitDot1 (s : String) : Option (String × String) :=
  match s.data.dropWhile (fun c => c ≠ '.') with
  | [] => none
  | _ :: t => some (⟨s.data.takeWhile (fun c => c ≠ '.')⟩, ⟨t⟩)

/-- `get_latest_openvsx_version`: the whole body is inside `try/except`,
so every failure outcome — identifier without a dot, network error,
non-200 status, malformed body, missing `version` field — yields `None`
and nothing propagates. -/
def get_latest_openvsx_version (ext_id : String) (resp : HttpOutcome) :
    Option String :=
  match pySplitDot1 ext_id with
  | none => none
  | some _ =>
    match resp with
    | .err _ => none
    | .ok status body =>
      if status = 200 then
        match body with
        | .malformed => none
        | .fields fs => jsonGet fs "version"
      else none

/-- `get_latest_github_release`: no `try/except` — `requests.get` raising
propagates, and on a 200 response a malformed body (`resp.json()`) or a
missing `tag_name` field (`data['tag_name']`) raises; only a non-200
status degrades to `None`. `lstrip('v')` strips every leading `v`. -/
def get_latest_github_release (repo : String) (resp : HttpOutcome) :
    Except String (Option String) :=
  match resp with
  | .err e => .error e
  | .ok status body =>
    if status = 200 then
      match body with
      | .malformed => .error "JSONDecodeError"
      | .fields fs =>
        match jsonGet fs "tag_name" with
        | none => .error "KeyError"
        | some t => .ok (some ⟨t.data.dropWhile (fun c => c = 'v')⟩)
    else .ok none

/-- The `for gvsix in github_vsix` loop paired with each entry's response:
an exception raised by the lookup aborts the loop, so the remaining
entries are not processed. -/
def runGithubChecks :
    List (HostedRelease × HttpOutcome) →
      Except String (List (HostedRelease × Option String))
  | [] => .ok []
  | (g, resp) :: rest =>
    match get_latest_github_release g.repo resp with
    | .error e => .error e
    | .ok latest =>
      match runGithubChecks rest with
      | .error e => .error e
      | .ok l => .ok ((g, latest) :: l)

/-- Claim C6: the claim holds for the OpenVSX lookup, whose body is wrapped
in `try/except` — but `get_latest_github_release` has no exception
handling: a network error propagates, a 200 response with a malformed body
or without a `tag_name` field raises, the run halts, and the remaining
entries of the sequence are not processed. Only a non-success status
degrades to the absent value there. -/
theorem github_lookup_raises :
    get_latest_github_release "foo/bar" (.err "ConnectionError")
      = .error "ConnectionError" ∧
    get_latest_github_release "foo/bar" (.ok 200 .malformed)
      = .error "JSONDecodeError" ∧
    get_latest_github_release "foo/bar"
        (.ok 200 (.fields [("name", "r1")])) = .error "KeyError" ∧
    get_latest_github_release "foo/bar" (.ok 404 .malformed) = .ok none ∧
    runGithubChecks
        [(⟨"foo/bar", "1.0", "f.vsix"⟩, .err "ConnectionError"),
          (⟨"o/r", "2.0", "g.vsix"⟩,
            .ok 200 (.fields [("tag_name", "v2.1")]))]
      = .error "ConnectionError" ∧
    get_latest_openvsx_version "ms-python.python" (.err "ConnectionError")
      = none ∧
    get_latest_openvsx_version "ms-python.python" (.ok 500 .malformed)
      = none ∧
    get_latest_openvsx_version "ms-python.python" (.ok 200 .malformed)
      = none ∧
    get_latest_openvsx_version "noDotIdentifier" (.ok 200 (.fields []))
      = none :=
  ⟨rfl, rfl, rfl, rfl, rfl, rfl, rfl, rfl, rfl⟩

/-! ### The sed-based rewrite of `extension_checker_with_pr.py`

`update_dockerfile` builds
`sed -i 's/code-server --install-extension {id}@{old}/...@{new}/g' FILE`
after escaping the dots of the identifier (but not of the version). In the
resulting basic regular expression the identifier's characters are literal,
`@` is literal, and each `.` of the old version matches any character
except a newline. Identifiers and versions captured by the extraction
regexes contain no other BRE metacharacters, so only the dot is modelled.
`sed -i` exits 0 whether or not any substitution occurred, so with the
build file present `subprocess.run(..., check=True)` never raises. -/

/-- One position of the sed pattern: a literal character or the `.`
wildcard. -/
inductive PatChar where
  | lit : Char → PatChar
  | dot : PatChar
deriving DecidableEq

/-- Whether one pattern position accepts a character. -/
def patCharMatches : PatChar → Char → Bool
  | .lit p, c => c = p
  | .dot, c => c ≠ '\n'

/-- Whether the pattern matches at the head of the input. -/
def patMatchesAt : List PatChar → List Char → Bool
  | [], _ => true
  | _ :: _, [] => false
  | p :: ps, c :: cs => patCharMatches p c && patMatchesAt ps cs

/-- Whether the pattern matches anywhere in the input. -/
def hasPatMatch (pat : List PatChar) : List Char → Bool
  | [] => patMatchesAt pat []
  | c :: cs => patMatchesAt pat (c :: cs) || hasPatMatch pat cs

/-- The sed search pattern built by `update_dockerfile`: the literal
directive prefix, the identifier with escaped (hence literal) dots, a
literal `@`, and the old version whose unescaped dots are wildcards. -/
def sedPat (ext_id old_version : String) : List PatChar :=
  ("code-server --install-extension ".data.map PatChar.lit)
    ++ (ext_id.data.map PatChar.lit)
    ++ (PatChar.lit '@'
      :: old_version.data.map
        (fun c => if c = '.' then PatChar.dot else PatChar.lit c))

/-- The sed replacement text (escapes in the replacement denote the plain
characters). -/
def sedRepl (ext_id new_version : String) : List Char :=
  "code-server --install-extension ".data
    ++ ext_id.data ++ '@' :: new_version.data

/-- `s/.../.../g` with explicit fuel (every step consumes at least one
input character, so fuel equal to the input length is enough): repeatedly
replace the leftmost match, resuming after the replaced region. -/
def sedGo (pat : List PatChar) (repl : List Char) :
    Nat → List Char → List Char
  | _, [] => []
  | 0, l => l
  | fuel + 1, c :: cs =>
    if patMatchesAt pat (c :: cs) then
      repl ++ sedGo pat repl fuel (List.drop (pat.length - 1) cs)
    else
      c :: sedGo pat repl fuel cs

/-- `s/.../.../g`: the global substitution over the whole input. -/
def sedSubstAll (pat : List PatChar) (repl : List Char)
    (l : List Char) : List Char :=
  sedGo pat repl l.length l

/-- `update_dockerfile` on a present build file with the given content:
the sed invocation exits 0 regardless of whether anything matched, so the
reported boolean is `true`, and the new content is the global
substitution. -/
def update_dockerfile (ext_id old_version new_version content : String) :
    Bool × String :=
  (true,
    ⟨sedSubstAll (sedPat ext_id old_version)
      (sedRepl ext_id new_version) content.data⟩)

theorem sedGo_of_no_match {pat : List PatChar} {repl : List Char}
    (fuel : Nat) {l : List Char} (h : hasPatMatch pat l = false) :
    sedGo pat repl fuel l = l := by
  induction fuel generalizing l with
  | zero => cases l <;> rfl
  | succ n ih =>
    cases l with
    | nil => rfl
    | cons c cs =>
      simp only [hasPatMatch, Bool.or_eq_false_iff] at h
      rw [sedGo, if_neg (by simp [h.1]), ih h.2]

theorem sedSubstAll_of_no_match {pat : List PatChar} {repl l : List Char}
    (h : hasPatMatch pat l = false) : sedSubstAll pat repl l = l :=
  sedGo_of_no_match l.length h

/-- Claim C7, counterexample: the build file `FROM ubuntu` contains no
occurrence of the directive pattern for `a.b@1`, yet the rewrite reports
`true` (sed exits 0 with or without a substitution), contradicting the
claim that it returns `false` when no matching text is found. -/
theorem update_dockerfile_no_match_counterexample :
    hasPatMatch (sedPat "a.b" "1") ("FROM ubuntu" : String).data = false ∧
    update_dockerfile "a.b" "1" "2" "FROM ubuntu" = (true, "FROM ubuntu") := by
  decide

/-- Claim C7 (amended: with the build file present, the rewrite always
reports `true` — sed exits 0 whether or not matching text exists — and when
the build file contains no occurrence of the pattern its content is left
unchanged). -/
theorem update_dockerfile_charact
    (ext_id old_version new_version content : String) :
    (update_dockerfile ext_id old_version new_version content).1 = true ∧
    (hasPatMatch (sedPat ext_id old_version) content.data = false →
      (update_dockerfile ext_id old_version new_version content).2
        = content) := by
  refine ⟨rfl, fun h => ?_⟩
  show (⟨sedSubstAll _ _ content.data⟩ : String) = content
  rw [sedSubstAll_of_no_match h]

/-- Claim C7 witness: concrete unmatched content, rewrite reports `true`
and leaves it unchanged. -/
theorem update_dockerfile_charact_witness :
    hasPatMatch (sedPat "a.b" "1") ("FROM ubuntu" : String).data = false ∧
    (update_dockerfile "a.b" "1" "2" "FROM ubuntu").1 = true ∧
    (update_dockerfile "a.b" "1" "2" "FROM ubuntu").2 = "FROM ubuntu" :=
  ⟨by decide, (update_dockerfile_charact "a.b" "1" "2" "FROM ubuntu").1,
    (update_dockerfile_charact "a.b" "1" "2" "FROM ubuntu").2 (by decide)⟩

/-! ### `images/cmd/custom_checkpoints.py`

`CentralizedCheckpoints.get_hashed_path` maps a notebook path to
`os.path.join('/opt/checkpoints', hashlib.sha256(path.encode()).hexdigest())`.
The collaborators are modelled from their standard definitions: UTF-8
encoding of the path, SHA-256 per FIPS 180-4 over byte lists (`Nat` values
below 256), lowercase hex digest, and the two-argument posix `os.path.join`.
-/

def w32 (n : Nat) : Nat := n % 4294967296

def rotr32 (n x : Nat) : Nat := w32 ((x >>> n) ||| (x <<< (32 - n)))

def bsig0 (x : Nat) : Nat := (rotr32 2 x) ^^^ ((rotr32 13 x) ^^^ (rotr32 22 x))
def bsig1 (x : Nat) : Nat := (rotr32 6 x) ^^^ ((rotr32 11 x) ^^^ (rotr32 25 x))
def ssig0 (x : Nat) : Nat := (rotr32 7 x) ^^^ ((rotr32 18 x) ^^^ (x >>> 3))
def ssig1 (x : Nat) : Nat := (rotr32 17 x) ^^^ ((rotr32 19 x) ^^^ (x >>> 10))
def chFun (x y z : Nat) : Nat := (x &&& y) ^^^ ((x ^^^ 4294967295) &&& z)
def majFun (x y z : Nat) : Nat := ((x &&& y) ^^^ (x &&& z)) ^^^ (y &&& z)

def k256 : List Nat :=
  [1116352408, 1899447441, 3049323471, 3921009573, 961987163,
    1508970993, 2453635748, 2870763221, 3624381080, 310598401,
    607225278, 1426881987, 1925078388, 2162078206, 2614888103,
    3248222580, 3835390401, 4022224774, 264347078, 604807628,
    770255983, 1249150122, 1555081692, 1996064986, 2554220882,
    2821834349, 2952996808, 3210313671, 3336571891, 3584528711,
    113926993, 338241895, 666307205, 773529912, 1294757372,
    1396182291, 1695183700, 1986661051, 2177026350, 2456956037,
    2730485921, 2820302411, 3259730800, 3345764771, 3516065817,
    3600352804, 4094571909, 275423344, 430227734, 506948616,
    659060556, 883997877, 958139571, 1322822218, 1537002063,
    1747873779, 1955562222, 2024104815, 2227730452, 2361852424,
    2428436474, 2756734187, 3204031479, 3329325298]

def h256init : List Nat :=
  [1779033703, 3144134277, 1013904242, 2773480762, 1359893119,
    2600822924, 528734635, 1541459225]

def beBytes : Nat → Nat → List Nat
  | 0, _ => []
  | k + 1, n => ((n >>> (8 * k)) % 256) :: beBytes k n

def toWords : List Nat → List Nat
  | b0 :: b1 :: b2 :: b3 :: rest =>
    (((b0 * 256 + b1) * 256 + b2) * 256 + b3) :: toWords rest
  | _ => []

def padMsg (msg : List Nat) : List Nat :=
  msg ++ (128 :: List.replicate ((119 - (msg.length % 64)) % 64) 0)
    ++ beBytes 8 (8 * msg.length)

def schedStep (w : List Nat) : List Nat :=
  w ++ [w32 (ssig1 (w.getD (w.length - 2) 0) + (w.getD (w.length - 7) 0
    + (ssig0 (w.getD (w.length - 15) 0) + w.getD (w.length - 16) 0)))]

def schedule : Nat → List Nat → List Nat
  | 0, w => w
  | n + 1, w => schedule n (schedStep w)

def roundStep (st : List Nat) (kw : Nat × Nat) : List Nat :=
  match st with
  | [a, b, c, d, e, f, g, h] =>
    [w32 ((w32 (h + (bsig1 e + (chFun e f g + (kw.1 + kw.2)))))
        + (w32 (bsig0 a + majFun a b c))),
      a, b, c,
      w32 (d + (w32 (h + (bsig1 e + (chFun e f g + (kw.1 + kw.2)))))),
      e, f, g]
  | other => other

def compress (hs : List Nat) (blockWords : List Nat) : List Nat :=
  ((hs.zip ((k256.zip (schedule 48 blockWords)).foldl roundStep hs)).map
    (fun p => w32 (p.1 + p.2)))

def chunksGo : Nat → List Nat → List (List Nat)
  | 0, _ => []
  | n + 1, l =>
    match l with
    | [] => []
    | c :: cs => ((c :: cs).take 64) :: chunksGo n ((c :: cs).drop 64)

def chunks64 (l : List Nat) : List (List Nat) := chunksGo l.length l

def sha256bytes (msg : List Nat) : List Nat :=
  (((chunks64 (padMsg msg)).foldl
      (fun hs blk => compress hs (toWords blk)) h256init).map
    (beBytes 4)).flatten

def hexDigitChar (n : Nat) : Char :=
  if n < 10 then Char.ofNat (48 + n) else Char.ofNat (87 + n)

def hexOfByte (b : Nat) : List Char :=
  [hexDigitChar ((b / 16) % 16), hexDigitChar (b % 16)]

def hexdigest (bytes : List Nat) : String := ⟨(bytes.map hexOfByte).flatten⟩

def utf8Char (c : Char) : List Nat :=
  let n := c.toNat
  if n < 128 then [n]
  else if n < 2048 then [192 + (n >>> 6), 128 + (n &&& 63)]
  else if n < 65536 then
    [224 + (n >>> 12), 128 + ((n >>> 6) &&& 63), 128 + (n &&& 63)]
  else
    [240 + (n >>> 18), 128 + ((n >>> 12) &&& 63), 128 + ((n >>> 6) &&& 63),
      128 + (n &&& 63)]

def utf8Bytes (s : String) : List Nat := (s.data.map utf8Char).flatten

/-- Two-argument posix `os.path.join`: an absolute second component
replaces the first; otherwise the components are joined with a single `/`
unless the first is empty or already ends in `/`. -/
def pyJoin (a b : String) : String :=
  if b.data.head? = some '/' then b
  else if a.data.getLast? = some '/' ∨ a = "" then a ++ b
  else a ++ "/" ++ b

/-- `CentralizedCheckpoints.get_hashed_path`. -/
def get_hashed_path (path : String) : String :=
  pyJoin "/opt/checkpoints" (hexdigest (sha256bytes (utf8Bytes path)))

/-- SHA-256 test vector: the digest of `"abc"`. -/
theorem sha256_abc_vector :
    hexdigest (sha256bytes (utf8Bytes "abc"))
      = "ba7816bf8f01cfea414140de5dae2223b00361a396177a9cb410ff61f20015ad" := by
  decide

theorem hexDigitChar_ne_slash : ∀ n < 16, hexDigitChar n ≠ '/' := by decide

theorem hexdigest_chars_ne_slash (bytes : List Nat) :
    ∀ c ∈ (hexdigest bytes).data, c ≠ '/' := by
  intro c hc
  simp only [hexdigest, List.mem_flatten, List.mem_map] at hc
  obtain ⟨l, ⟨b, hb, hl⟩, hcl⟩ := hc
  subst hl
  simp only [hexOfByte, List.mem_cons, List.mem_singleton] at hcl
  rcases hcl with hcl | hcl | hcl
  · subst hcl
    exact hexDigitChar_ne_slash _ (Nat.mod_lt _ (by decide))
  · subst hcl
    exact hexDigitChar_ne_slash _ (Nat.mod_lt _ (by decide))
  · exact absurd hcl (by simp)

theorem isPrefixOf_append_self (l1 l2 : List Char) :
    l1.isPrefixOf (l1 ++ l2) = true := by
  induction l1 with
  | nil => simp [List.isPrefixOf]
  | cons a as ih => simp [List.isPrefixOf, ih]

theorem pyJoin_checkpoints {h : String} (hh : ∀ c ∈ h.data, c ≠ '/') :
    pyJoin "/opt/checkpoints" h = "/opt/checkpoints" ++ "/" ++ h := by
  unfold pyJoin
  have h1 : ¬ (h.data.head? = some '/') := by
    cases hd : h.data with
    | nil => simp
    | cons c cs =>
      simp only [List.head?_cons, Option.some_inj]
      exact hh c (by simp [hd])
  rw [if_neg h1, if_neg (by decide)]

/-- Claim C10: the checkpoint-location mapping returns
`/opt/checkpoints/<hex>` where `<hex>` is the SHA-256 hexadecimal digest of
the path's UTF-8 encoding; the mapping is deterministic — equal paths yield
equal directories — and every returned directory lies under
`/opt/checkpoints`. -/
theorem get_hashed_path_charact (p q : String) (h : p = q) :
    get_hashed_path p = get_hashed_path q ∧
    get_hashed_path p
      = pyJoin "/opt/checkpoints" (hexdigest (sha256bytes (utf8Bytes p))) ∧
    ("/opt/checkpoints/" : String).data.isPrefixOf
      (get_hashed_path p).data = true := by
  refine ⟨by rw [h], rfl, ?_⟩
  unfold get_hashed_path
  rw [pyJoin_checkpoints
    (hexdigest_chars_ne_slash (sha256bytes (utf8Bytes p)))]
  have hd : ("/opt/checkpoints" ++ "/"
      ++ hexdigest (sha256bytes (utf8Bytes p))).data
      = ("/opt/checkpoints/" : String).data
        ++ (hexdigest (sha256bytes (utf8Bytes p))).data := by
    simp only [String.data_append, List.append_assoc]
    rfl
  rw [hd]
  exact isPrefixOf_append_self _ _

/-- Claim C10 witness: a concrete notebook path. -/
theorem get_hashed_path_witness :
    ("nb.ipynb" : String) = "nb.ipynb" ∧
    get_hashed_path "nb.ipynb" = get_hashed_path "nb.ipynb" ∧
    ("/opt/checkpoints/" : String).data.isPrefixOf
      (get_hashed_path "nb.ipynb").data = true :=
  ⟨rfl, (get_hashed_path_charact "nb.ipynb" "nb.ipynb" rfl).1,
    (get_hashed_path_charact "nb.ipynb" "nb.ipynb" rfl).2.2⟩

end ZoneKubeflow
